import Mathlib

/-!
Shallow embedding of `src/userspace/primes/primes.c`.

C `int` values are modelled as `Int` (no claim exercises 32-bit overflow),
C strings as `List Char` (the characters up to the terminating null byte).
A counted `for`/`while` loop whose trip count is known up front is modelled
by structural recursion on that trip count (the fuel argument), so that the
definitions compute by `decide`/`rfl`; `naive_nth_prime`, whose trip count
depends on the distribution of primes, is modelled by well-founded
recursion, together with an equivalent fuel-indexed evaluator used to
establish concrete values.
-/

/-- Body of the loop in `is_prime` (primes.c, lines 4-11): for `i` from `2`
while `i < x`, if `x % i == 0` return `0`.  The fuel `k` is the trip count
`x - 2`, so the tested divisors are exactly `i, i+1, ..., i+k-1`. -/
def is_prime_go : Nat → Int → Int → Bool
  | 0, _, _ => true
  | k + 1, x, i => if x % i = 0 then false else is_prime_go k x (i + 1)

/-- `is_prime` (primes.c, lines 4-11): trial division by every
`i` with `2 <= i < x`; returns `1` (true) when no divisor is found. -/
def is_prime (x : Int) : Bool := is_prime_go (x - 2).toNat x 2

/-- `naive_nth_prime`'s loop (primes.c, lines 13-23): while `count < n`,
increment `count` whenever `is_prime i`, and always increment `i`; on exit
return `i`.  Termination: if `i` is rejected by `is_prime` the distance from
`i` to the next accepted value shrinks (`Nat.find` over
`Nat.exists_infinite_primes` supplies an accepted value above any point,
because every prime is accepted); if `i` is accepted, `n - count` shrinks. -/
def nthPrimeGo (n count i : Int) : Int :=
  if h : count < n then
    nthPrimeGo n (if is_prime i then count + 1 else count) (i + 1)
  else i
termination_by ((n - count).toNat,
  Nat.find (Nat.exists_infinite_primes i.toNat) - i.toNat)
decreasing_by
  split
  · exact Prod.Lex.left _ _ (by omega)
  · next hp0 =>
    have hp : is_prime i = false := by
      revert hp0
      cases is_prime i <;> simp
    -- `i` was rejected, so `i` is at least 3 and `i.toNat` is not prime.
    have hdiv : ∀ k : Nat, ∀ x j : Int, is_prime_go k x j = false →
        ∃ m : Int, j ≤ m ∧ m < j + k ∧ x % m = 0 := by
      intro k
      induction k with
      | zero => intro x j hg; simp [is_prime_go] at hg
      | succ k ih =>
        intro x j hg
        rw [is_prime_go] at hg
        by_cases hm : x % j = 0
        · exact ⟨j, le_refl j, by omega, hm⟩
        · rw [if_neg hm] at hg
          obtain ⟨m, h1, h2, h3⟩ := ih x (j + 1) hg
          exact ⟨m, by omega, by omega, h3⟩
    have hk : (i - 2).toNat ≠ 0 := by
      intro h0
      rw [is_prime, h0] at hp
      simp [is_prime_go] at hp
    have hi3 : 3 ≤ i := by omega
    obtain ⟨m, hm1, hm2, hm3⟩ := hdiv (i - 2).toNat i 2 (by simpa [is_prime] using hp)
    have hmi : m < i := by omega
    have hnp : ¬ Nat.Prime i.toNat := by
      intro hpr
      have hdvd : m ∣ i := Int.dvd_of_emod_eq_zero hm3
      have hmn : (m.toNat : Int) = m := Int.toNat_of_nonneg (by omega)
      have hin : (i.toNat : Int) = i := Int.toNat_of_nonneg (by omega)
      have hdvdn : m.toNat ∣ i.toNat := by
        rw [← Int.natCast_dvd_natCast, hmn, hin]
        exact hdvd
      rcases (Nat.Prime.eq_one_or_self_of_dvd hpr _ hdvdn) with h1 | h1 <;> omega
    -- the next accepted value above `i` is strictly above `i`
    have hfs := Nat.find_spec (Nat.exists_infinite_primes i.toNat)
    have hne : Nat.find (Nat.exists_infinite_primes i.toNat) ≠ i.toNat := by
      intro he
      exact hnp (he ▸ hfs.2)
    have hgt : i.toNat + 1 ≤ Nat.find (Nat.exists_infinite_primes i.toNat) := by
      have := hfs.1
      omega
    have hle : Nat.find (Nat.exists_infinite_primes (i + 1).toNat) ≤
        Nat.find (Nat.exists_infinite_primes i.toNat) := by
      apply Nat.find_min'
      constructor
      · omega
      · exact hfs.2
    exact Prod.Lex.right _ (by omega)

/-- `naive_nth_prime` (primes.c, lines 13-23): `i = 2`, `count = 0`,
then the search loop. -/
def naive_nth_prime (n : Int) : Int := nthPrimeGo n 0 2

/-- Fuel-indexed evaluator for the search loop: identical step function,
`none` when the fuel runs out.  Used to compute concrete values of
`nthPrimeGo` (which, being well-founded, does not reduce definitionally). -/
def nthPrimeGoFuel : Nat → Int → Int → Int → Option Int
  | 0, _, _, _ => none
  | f + 1, n, count, i =>
    if count < n then
      nthPrimeGoFuel f n (if is_prime i then count + 1 else count) (i + 1)
    else some i

/-- Digit-emission loop of `int_to_str` (primes.c, lines 46-66): while
`x > 0`, emit the character `(x % 10) + '0'` and divide `x` by `10`.  The
digits come out least-significant first.  The fuel bounds the trip count:
`x` itself always suffices, since each iteration at least halves `x`. -/
def int_to_str_go : Nat → Int → List Char
  | 0, _ => []
  | f + 1, x =>
    if 0 < x then Char.ofNat ((x % 10).toNat + 48) :: int_to_str_go f (x / 10)
    else []

/-- `int_to_str` (primes.c, lines 46-66): dump the digits of `x` into the
buffer in reverse order, then reverse the buffer in place.  The final
buffer contents (up to the written null terminator) are returned. -/
def int_to_str (x : Int) : List Char := (int_to_str_go x.toNat x).reverse

/-- The fatal-error message printed by `str_to_int` (primes.c, line 73). -/
def parse_err_msg : List Char :=
  "Error: non-digit character in integer string\n".toList

/-- The usage message printed by `main` (primes.c, line 88). -/
def usage_msg : List Char := "Usage: primes <n>\n".toList

/-- Loop of `str_to_int` (primes.c, lines 68-83): for each character before
the null terminator, multiply the accumulator by 10, fatally fail if the
character is outside `'0'..'9'` (codes 48..57), else add its digit value.
The fatal path (`syscall_print` of the error message, then
`syscall_exit(1)`) is modelled as `Except.error (message, exit code)`;
the normal return is `Except.ok`. -/
def str_to_int_go : Int → List Char → Except (List Char × Int) Int
  | x, [] => .ok x
  | x, c :: s =>
    let y := x * 10
    if c.toNat < 48 ∨ 57 < c.toNat then .error (parse_err_msg, 1)
    else str_to_int_go (y + ((c.toNat : Int) - 48)) s

/-- `str_to_int` (primes.c, lines 68-83): accumulate from `x = 0`. -/
def str_to_int (s : List Char) : Except (List Char × Int) Int :=
  str_to_int_go 0 s

/-- `main` (primes.c, lines 85-108) as a function from the `argv` vector
(program name included, so `argc = argv.length`) to the observable
behaviour of the process: the list of buffers passed to `syscall_print`,
in order, and the exit status.  The message assembly via `_strcpy` into
`buffer` starting from `"The "` and appending `n_str`, `"th prime is: "`
and the rendered prime is modelled as list concatenation. -/
def main_model (argv : List (List Char)) : List (List Char) × Int :=
  match argv with
  | [_, n_str] =>
    match str_to_int n_str with
    | .error (msg, code) => ([msg], code)
    | .ok n =>
      ([("The ".toList ++ n_str ++ "th prime is: ".toList ++
          int_to_str (naive_nth_prime n))], 0)
  | _ => ([usage_msg], 1)

/-- The number of primes in the inclusive interval `[2, m]`. -/
def primeCount (m : Nat) : Nat := ((Finset.Icc 2 m).filter Nat.Prime).card

/-! ### The primality test -/

/-- The fuelled loop tests exactly the divisors `j` with `i ≤ j < i + k`. -/
theorem is_prime_go_iff (k : Nat) : ∀ x i : Int,
    is_prime_go k x i = true ↔ ∀ j : Int, i ≤ j → j < i + k → x % j ≠ 0 := by
  induction k with
  | zero =>
    intro x i
    constructor
    · intro _ j h1 h2
      omega
    · intro _
      rfl
  | succ k ih =>
    intro x i
    rw [is_prime_go]
    by_cases hm : x % i = 0
    · rw [if_pos hm]
      constructor
      · intro h
        exact absurd h (by simp)
      · intro hall
        exact absurd hm (hall i (le_refl i) (by omega))
    · rw [if_neg hm, ih]
      constructor
      · intro hall j h1 h2
        rcases eq_or_lt_of_le h1 with rfl | h1
        · exact hm
        · exact hall j (by omega) (by omega)
      · intro hall j h1 h2
        exact hall j (by omega) (by omega)

/-- `is_prime x` is true exactly when no `j` with `2 ≤ j < x` divides `x`
evenly; for `x ≤ 1` there is no such `j` and the test reports "prime". -/
theorem is_prime_eq_true_iff (x : Int) :
    is_prime x = true ↔ ∀ j : Int, 2 ≤ j → j < x → x % j ≠ 0 := by
  rw [is_prime, is_prime_go_iff]
  by_cases hx : 2 ≤ x
  · have : (2 : Int) + ((x - 2).toNat : Int) = x := by omega
    rw [this]
  · have : ((x - 2).toNat : Int) = 0 := by omega
    rw [this]
    constructor
    · intro _ j h1 h2
      omega
    · intro _ j h1 h2
      omega

/-- For values at least `2`, the C test agrees with mathematical
primality. -/
theorem is_prime_iff_prime (I : Nat) (hI : 2 ≤ I) :
    is_prime (I : Int) = true ↔ I.Prime := by
  rw [is_prime_eq_true_iff, Nat.prime_def_lt]
  constructor
  · intro hno
    refine ⟨hI, fun m hm hdvd => ?_⟩
    by_contra hm1
    have hm0 : m ≠ 0 := by
      intro h0
      rw [h0] at hdvd
      have := Nat.eq_zero_of_zero_dvd hdvd
      omega
    have hm2 : 2 ≤ m := by omega
    exact hno (m : Int) (by exact_mod_cast hm2) (by exact_mod_cast hm)
      (Int.emod_eq_zero_of_dvd (by exact_mod_cast hdvd))
  · intro ⟨_, hmin⟩ j h2 hj hmod
    have hdvd : j ∣ (I : Int) := Int.dvd_of_emod_eq_zero hmod
    have hjn : (j.toNat : Int) = j := Int.toNat_of_nonneg (by omega)
    have hdvdn : j.toNat ∣ I := by
      rw [← Int.natCast_dvd_natCast, hjn]
      exact hdvd
    have := hmin j.toNat (by omega)
    omega

/-! ### The Nth-prime search -/

/-- A successful fuelled run computes the value of the loop. -/
theorem nthPrimeGoFuel_sound : ∀ (f : Nat) (n count i r : Int),
    nthPrimeGoFuel f n count i = some r → nthPrimeGo n count i = r := by
  intro f
  induction f with
  | zero =>
    intro n count i r h
    exact absurd h (by simp [nthPrimeGoFuel])
  | succ f ih =>
    intro n count i r h
    rw [nthPrimeGoFuel] at h
    rw [nthPrimeGo]
    by_cases hc : count < n
    · rw [if_pos hc] at h
      rw [dif_pos hc]
      exact ih _ _ _ _ h
    · rw [if_neg hc] at h
      rw [dif_neg hc]
      exact Option.some.inj h

/-- The search loop, started in a reachable state (`i = I ≥ 2` with
`count` the number of primes below `I`) and aimed at a prime `P` with
`n - 1` primes below it, stops at `P + 1`. -/
theorem nthPrimeGo_run (n : Int) (P : Nat) (hPp : P.Prime)
    (hcP : (Nat.count Nat.Prime P : Int) = n - 1) :
    ∀ (d I : Nat), 2 ≤ I → I ≤ P → P + 1 - I ≤ d →
    nthPrimeGo n (Nat.count Nat.Prime I) (I : Int) = (P : Int) + 1 := by
  intro d
  induction d with
  | zero =>
    intro I h2 hIP hd
    omega
  | succ d ih =>
    intro I h2 hIP hd
    have hcI : Nat.count Nat.Prime I ≤ Nat.count Nat.Prime P :=
      Nat.count_monotone _ hIP
    have hlt : (Nat.count Nat.Prime I : Int) < n := by omega
    rw [nthPrimeGo, dif_pos hlt]
    rcases Nat.lt_or_ge I P with hIltP | hIgeP
    · -- the loop continues: the invariant is preserved
      have hupd : (if is_prime (I : Int) then (Nat.count Nat.Prime I : Int) + 1
          else (Nat.count Nat.Prime I : Int)) = (Nat.count Nat.Prime (I + 1) : Int) := by
        rw [Nat.count_succ]
        by_cases hp : I.Prime
        · rw [if_pos ((is_prime_iff_prime I h2).mpr hp), if_pos hp]
          push_cast
          ring
        · rw [if_neg (fun hc => hp ((is_prime_iff_prime I h2).mp hc)), if_neg hp]
          push_cast
          ring
      rw [hupd, show ((I : Int) + 1) = ((I + 1 : Nat) : Int) by push_cast; ring]
      exact ih (I + 1) (by omega) (by omega) (by omega)
    · -- `I = P`: the candidate is accepted and the next guard check fails
      have hIeq : I = P := by omega
      subst hIeq
      rw [if_pos ((is_prime_iff_prime I h2).mpr hPp)]
      rw [nthPrimeGo, dif_neg (by omega)]

/-- For `n ≥ 1` the search returns one more than the `n`-th prime
(`Nat.nth Nat.Prime` is 0-indexed). -/
theorem naive_nth_prime_eq_nth (n : Int) (hn : 1 ≤ n) :
    naive_nth_prime n = (Nat.nth Nat.Prime (n - 1).toNat : Int) + 1 := by
  have hPp : (Nat.nth Nat.Prime (n - 1).toNat).Prime :=
    Nat.nth_mem_of_infinite Nat.infinite_setOf_prime _
  have hcP : (Nat.count Nat.Prime (Nat.nth Nat.Prime (n - 1).toNat) : Int) = n - 1 := by
    rw [Nat.count_nth_of_infinite Nat.infinite_setOf_prime]
    omega
  have h2P : 2 ≤ Nat.nth Nat.Prime (n - 1).toNat := hPp.two_le
  have hrun := nthPrimeGo_run n _ hPp hcP
    (Nat.nth Nat.Prime (n - 1).toNat + 1 - 2) 2 (le_refl 2) h2P (le_refl _)
  have hc2 : Nat.count Nat.Prime 2 = 0 := by decide
  rw [hc2] at hrun
  rw [naive_nth_prime]
  simpa using hrun

/-- Counting primes in `[2, m]` is counting primes below `m + 1`. -/
theorem primeCount_eq_count (m : Nat) :
    primeCount m = Nat.count Nat.Prime (m + 1) := by
  rw [primeCount, Nat.count_eq_card_filter_range]
  congr 1
  ext k
  simp only [Finset.mem_filter, Finset.mem_Icc, Finset.mem_range, Nat.lt_succ_iff]
  constructor
  · rintro ⟨⟨_, hm⟩, hp⟩
    exact ⟨hm, hp⟩
  · rintro ⟨hm, hp⟩
    exact ⟨⟨hp.two_le, hm⟩, hp⟩

/-- The returned value, minus one, is prime, and `[2, returned - 1]`
holds exactly `n` primes. -/
theorem naive_nth_prime_spec (n : Int) (hn : 1 ≤ n) :
    2 ≤ naive_nth_prime n - 1 ∧
    Nat.Prime ((naive_nth_prime n - 1).toNat) ∧
    (primeCount ((naive_nth_prime n - 1).toNat) : Int) = n := by
  have hPp : (Nat.nth Nat.Prime (n - 1).toNat).Prime :=
    Nat.nth_mem_of_infinite Nat.infinite_setOf_prime _
  have heq := naive_nth_prime_eq_nth n hn
  have h2P : 2 ≤ Nat.nth Nat.Prime (n - 1).toNat := hPp.two_le
  have htn : (naive_nth_prime n - 1).toNat = Nat.nth Nat.Prime (n - 1).toNat := by
    omega
  refine ⟨by omega, htn ▸ hPp, ?_⟩
  rw [htn, primeCount_eq_count, Nat.count_succ, if_pos hPp,
    Nat.count_nth_of_infinite Nat.infinite_setOf_prime]
  push_cast
  omega

/-- Concrete runs of the search loop. -/
theorem naive_nth_prime_zero : naive_nth_prime 0 = 2 :=
  nthPrimeGoFuel_sound 20 0 0 2 2 (by decide)

theorem naive_nth_prime_one : naive_nth_prime 1 = 3 :=
  nthPrimeGoFuel_sound 20 1 0 2 3 (by decide)

theorem naive_nth_prime_two : naive_nth_prime 2 = 4 :=
  nthPrimeGoFuel_sound 20 2 0 2 4 (by decide)

theorem naive_nth_prime_five : naive_nth_prime 5 = 12 :=
  nthPrimeGoFuel_sound 20 5 0 2 12 (by decide)

/-! ### Decimal parsing and rendering -/

/-- Parsing a concatenation: a successful parse of the first part feeds
its value into the parse of the second. -/
theorem str_to_int_go_append_ok (l1 l2 : List Char) : ∀ (x v : Int),
    str_to_int_go x l1 = .ok v →
    str_to_int_go x (l1 ++ l2) = str_to_int_go v l2 := by
  induction l1 with
  | nil =>
    intro x v h
    rw [show x = v from Except.ok.inj h]
    rfl
  | cons c s ih =>
    intro x v h
    simp only [str_to_int_go, List.cons_append] at h ⊢
    by_cases hc : c.toNat < 48 ∨ 57 < c.toNat
    · rw [if_pos hc] at h
      exact absurd h (by simp)
    · rw [if_neg hc] at h ⊢
      exact ih _ _ h

/-- Parsing the rendered digits of `x` (with any accumulator) succeeds and
appends `x` to the accumulated value positionally. -/
theorem int_to_str_go_parse (f : Nat) : ∀ x : Int, 0 ≤ x → x ≤ (f : Int) →
    ∀ acc : Int, str_to_int_go acc ((int_to_str_go f x).reverse) =
      .ok (acc * 10 ^ (int_to_str_go f x).length + x) := by
  induction f with
  | zero =>
    intro x h0 hf acc
    have hx : x = 0 := by omega
    subst hx
    simp [int_to_str_go, str_to_int_go]
  | succ f ih =>
    intro x h0 hf acc
    by_cases hx : 0 < x
    · have hd0 : 0 ≤ x / 10 := by omega
      have hdf : x / 10 ≤ (f : Int) := by omega
      rw [int_to_str_go, if_pos hx, List.reverse_cons,
        str_to_int_go_append_ok _ _ acc _ (ih (x / 10) hd0 hdf acc)]
      have hr : (x % 10).toNat < 10 := by omega
      have hchar : ∀ r : Fin 10, (Char.ofNat (r.val + 48)).toNat = r.val + 48 := by
        decide
      have hc := hchar ⟨(x % 10).toNat, hr⟩
      have hcond : ¬((Char.ofNat ((x % 10).toNat + 48)).toNat < 48 ∨
          57 < (Char.ofNat ((x % 10).toNat + 48)).toNat) := by
        rw [hc]
        omega
      simp only [str_to_int_go, if_neg hcond, List.length_cons]
      have htn : (((x % 10).toNat : Int)) = x % 10 := by omega
      rw [hc]
      push_cast [htn]
      rw [pow_succ, ← mul_assoc]
      generalize acc * (10 : Int) ^ (int_to_str_go f (x / 10)).length = A
      have hde : 10 * (x / 10) + x % 10 = x := Int.ediv_add_emod x 10
      congr 1
      omega
    · have hx0 : x = 0 := by omega
      subst hx0
      simp [int_to_str_go, str_to_int_go]

/-- Round-trip: rendering then parsing restores any non-negative value. -/
theorem str_to_int_int_to_str (v : Int) (h0 : 0 ≤ v) :
    str_to_int (int_to_str v) = .ok v := by
  rw [str_to_int, int_to_str]
  have h := int_to_str_go_parse v.toNat v h0 (by omega) 0
  simpa using h

/-- The only error the parsing loop ever produces is the fixed non-digit
message with exit status 1. -/
theorem str_to_int_go_error : ∀ (s : List Char) (x : Int) (e : List Char × Int),
    str_to_int_go x s = .error e → e = (parse_err_msg, 1) := by
  intro s
  induction s with
  | nil =>
    intro x e h
    exact absurd h (by simp [str_to_int_go])
  | cons c s ih =>
    intro x e h
    simp only [str_to_int_go] at h
    by_cases hc : c.toNat < 48 ∨ 57 < c.toNat
    · rw [if_pos hc] at h
      exact (Except.error.inj h).symm
    · rw [if_neg hc] at h
      exact ih _ _ h

/-- A string holding any non-digit character makes the parsing loop take
the fatal path, whatever the accumulator. -/
theorem str_to_int_go_nondigit : ∀ (s : List Char) (x : Int),
    (∃ c ∈ s, c.toNat < 48 ∨ 57 < c.toNat) →
    str_to_int_go x s = .error (parse_err_msg, 1) := by
  intro s
  induction s with
  | nil =>
    rintro x ⟨c, hc, _⟩
    exact absurd hc (List.not_mem_nil c)
  | cons a s ih =>
    rintro x ⟨c, hc, hnd⟩
    simp only [str_to_int_go]
    by_cases ha : a.toNat < 48 ∨ 57 < a.toNat
    · rw [if_pos ha]
    · rw [if_neg ha]
      apply ih
      rcases List.mem_cons.mp hc with rfl | hmem
      · exact absurd hnd ha
      · exact ⟨c, hmem, hnd⟩

/-! ### Evaluating `main` on the argument "5" -/

/-- Running the program as `primes 5` prints one message,
`The 5th prime is: 12`, and exits with status 0. -/
theorem main_model_five : main_model ["primes".toList, "5".toList] =
    (["The 5th prime is: 12".toList], 0) := by
  have h1 : main_model ["primes".toList, "5".toList] =
      ([("The ".toList ++ "5".toList ++ "th prime is: ".toList ++
        int_to_str (naive_nth_prime 5))], 0) := rfl
  rw [h1, naive_nth_prime_five]
  decide

/-! ### The claims -/

/-- C1: the program invoked with the single argument "5" does NOT print
`The 5th prime is: 11` (with exit status 0): the claimed behaviour is
refuted at this concrete input. -/
theorem claim1_counterexample :
    main_model ["primes".toList, "5".toList] ≠ (["The 5th prime is: 11".toList], 0) := by
  rw [main_model_five]
  decide

/-- C1 (amended): the program invoked with the single argument "5" prints
`The 5th prime is: 12` and exits with status 0. -/
theorem claim1 : main_model ["primes".toList, "5".toList] =
    (["The 5th prime is: 12".toList], 0) :=
  main_model_five

/-- C2: at n = 1 the search returns 3, and the interval [2, 3] does not
hold exactly 1 prime, refuting "exactly n primes exist in [2, result]"
(and with it search(1) = 2). -/
theorem claim2_counterexample :
    naive_nth_prime 1 = 3 ∧ ¬ ((primeCount ((naive_nth_prime 1).toNat) : Int) = 1) := by
  refine ⟨naive_nth_prime_one, ?_⟩
  rw [naive_nth_prime_one]
  decide

/-- C2 (amended): for every n ≥ 1 the search returns one more than a
prime — result − 1 is prime and exactly n primes lie in [2, result − 1] —
and in particular search(1) = 3, search(2) = 4, search(5) = 12. -/
theorem claim2 (n : Int) (hn : 1 ≤ n) :
    Nat.Prime ((naive_nth_prime n - 1).toNat) ∧
    (primeCount ((naive_nth_prime n - 1).toNat) : Int) = n ∧
    naive_nth_prime 1 = 3 ∧ naive_nth_prime 2 = 4 ∧ naive_nth_prime 5 = 12 :=
  ⟨(naive_nth_prime_spec n hn).2.1, (naive_nth_prime_spec n hn).2.2,
    naive_nth_prime_one, naive_nth_prime_two, naive_nth_prime_five⟩

/-- C2 witness: the amended claim instantiated at n = 5. -/
theorem claim2_witness :
    (1 : Int) ≤ 5 ∧ Nat.Prime ((naive_nth_prime 5 - 1).toNat) :=
  ⟨by norm_num, (claim2 5 (by norm_num)).1⟩

/-- C3: for every n ≥ 1 the search returns the candidate one past the last
prime found: result − 1 is prime and exactly n primes lie in
[2, result − 1]. -/
theorem claim3 (n : Int) (hn : 1 ≤ n) :
    2 ≤ naive_nth_prime n - 1 ∧
    Nat.Prime ((naive_nth_prime n - 1).toNat) ∧
    (primeCount ((naive_nth_prime n - 1).toNat) : Int) = n :=
  naive_nth_prime_spec n hn

/-- C3 witness: instantiated at n = 5 (result 12, 11 prime, five primes in
[2, 11]). -/
theorem claim3_witness :
    (1 : Int) ≤ 5 ∧ (2 ≤ naive_nth_prime 5 - 1 ∧
      Nat.Prime ((naive_nth_prime 5 - 1).toNat) ∧
      (primeCount ((naive_nth_prime 5 - 1).toNat) : Int) = 5) :=
  ⟨by norm_num, claim3 5 (by norm_num)⟩

/-- C4: `is_prime x` returns true iff no integer `2 ≤ i < x` divides `x`
evenly; in particular every `x ≤ 1` is reported "prime". -/
theorem claim4 (x : Int) :
    (is_prime x = true ↔ ∀ j : Int, 2 ≤ j → j < x → x % j ≠ 0) ∧
    (x ≤ 1 → is_prime x = true) := by
  refine ⟨is_prime_eq_true_iff x, fun hx => ?_⟩
  rw [is_prime_eq_true_iff]
  intro j h1 h2
  omega

/-- C4 witness: the boundary case x = 1 is reported "prime". -/
theorem claim4_witness : is_prime 1 = true :=
  (claim4 1).2 (by norm_num)

/-- C5: for every non-negative v < 10^9, parsing the rendered text
round-trips to v without taking the fatal error path. -/
theorem claim5 (v : Int) (h0 : 0 ≤ v) (_hlt : v < 10 ^ 9) :
    str_to_int (int_to_str v) = .ok v :=
  str_to_int_int_to_str v h0

/-- C5 witness: round-trip at v = 1000. -/
theorem claim5_witness :
    (0 : Int) ≤ 1000 ∧ (1000 : Int) < 10 ^ 9 ∧
    str_to_int (int_to_str 1000) = .ok 1000 :=
  ⟨by norm_num, by norm_num, claim5 1000 (by norm_num) (by norm_num)⟩

/-- C6: any string holding a character outside '0'..'9' makes `str_to_int`
fail fatally, printing exactly the non-digit error message and exiting
with status 1, with no value returned. -/
theorem claim6 (s : List Char) (h : ∃ c ∈ s, c.toNat < 48 ∨ 57 < c.toNat) :
    str_to_int s = .error (parse_err_msg, 1) :=
  str_to_int_go_nondigit s 0 h

/-- C6 witness: the input "3x". -/
theorem claim6_witness :
    (∃ c ∈ "3x".toList, c.toNat < 48 ∨ 57 < c.toNat) ∧
    str_to_int "3x".toList = .error (parse_err_msg, 1) :=
  ⟨by decide, claim6 _ (by decide)⟩

/-- C7: rendering 0 does not produce "0": the digit loop never runs and
the buffer holds the empty string. -/
theorem claim7_counterexample : int_to_str 0 ≠ "0".toList := by
  decide

/-- C7 (amended): rendering 0 produces the empty string, while
render(7) = "7" and render(1000) = "1000" hold as claimed. -/
theorem claim7 : int_to_str 0 = [] ∧ int_to_str 7 = "7".toList ∧
    int_to_str 1000 = "1000".toList := by
  decide

/-- C8: the n = 0 search does return the initial candidate 2 immediately,
but 2 IS a prime, refuting "that returned value is not a prime". -/
theorem claim8_counterexample :
    ¬ (naive_nth_prime 0 = 2 ∧ ¬ Nat.Prime ((naive_nth_prime 0).toNat)) := by
  rintro ⟨h1, h2⟩
  rw [h1] at h2
  exact h2 (by decide)

/-- C8 (amended): for n = 0 the search terminates immediately (the guard
0 < 0 fails) and returns the initial candidate 2, which is prime. -/
theorem claim8 : naive_nth_prime 0 = 2 ∧ Nat.Prime ((naive_nth_prime 0).toNat) :=
  ⟨naive_nth_prime_zero, by rw [naive_nth_prime_zero]; decide⟩

/-- C9: on every run the program performs exactly one print, and
terminates with status 0 exactly on the success path (two `argv` entries
whose second parses as a decimal number) and status 1 exactly on the
error paths (wrong argument count, or a non-digit in the argument). -/
theorem claim9 (argv : List (List Char)) :
    (main_model argv).1.length = 1 ∧
    ((main_model argv).2 = 0 ↔ ∃ a s v, argv = [a, s] ∧ str_to_int s = Except.ok v) ∧
    ((main_model argv).2 = 1 ↔ ¬ ∃ a s v, argv = [a, s] ∧ str_to_int s = Except.ok v) := by
  match argv with
  | [] =>
    refine ⟨rfl, ⟨fun h => absurd h (by decide), ?_⟩, ⟨fun _ => ?_, fun _ => rfl⟩⟩ <;>
      rintro ⟨a, s, v, heq, -⟩ <;> exact List.noConfusion heq
  | [x] =>
    refine ⟨rfl, ⟨fun h => absurd (show (1 : Int) = 0 from h) (by decide), ?_⟩,
      ⟨fun _ => ?_, fun _ => rfl⟩⟩ <;>
      rintro ⟨a, s, v, heq, -⟩ <;> injection heq with h1 h2 <;> exact List.noConfusion h2
  | x :: y :: z :: t =>
    refine ⟨rfl, ⟨fun h => absurd (show (1 : Int) = 0 from h) (by decide), ?_⟩,
      ⟨fun _ => ?_, fun _ => rfl⟩⟩ <;>
      rintro ⟨a, s, v, heq, -⟩ <;> injection heq with h1 h2 <;>
      injection h2 with h3 h4 <;> exact List.noConfusion h4
  | [a, b] =>
    cases hsb : str_to_int b with
    | ok v =>
      have hm0 : main_model [a, b] =
          ([("The ".toList ++ b ++ "th prime is: ".toList ++
            int_to_str (naive_nth_prime v))], 0) := by
        simp [main_model, hsb]
      have hex : ∃ a0 s v0, [a, b] = [a0, s] ∧ str_to_int s = Except.ok v0 :=
        ⟨a, b, v, rfl, hsb⟩
      rw [hm0]
      refine ⟨rfl, ⟨fun _ => hex, fun _ => rfl⟩, ⟨?_, fun hne => absurd hex hne⟩⟩
      intro h
      simp at h
    | error e =>
      obtain ⟨m, c⟩ := e
      have hec := str_to_int_go_error b 0 (m, c) hsb
      have hc1 : c = 1 := by
        simpa using congrArg Prod.snd hec
      subst hc1
      have hm0 : main_model [a, b] = ([m], 1) := by
        simp [main_model, hsb]
      have hnot : ¬ ∃ a0 s v0, [a, b] = [a0, s] ∧ str_to_int s = Except.ok v0 := by
        rintro ⟨a0, s, v0, heq, hok⟩
        injection heq with h1 h2
        injection h2 with h3 h4
        rw [← h3, hsb] at hok
        exact Except.noConfusion hok
      rw [hm0]
      refine ⟨rfl, ⟨?_, fun hex => absurd hex hnot⟩, ⟨fun _ => hnot, fun _ => rfl⟩⟩
      intro h
      simp at h

/-- C10: `str_to_int` on the empty string returns 0 without taking the
fatal non-digit path. -/
theorem claim10 : str_to_int [] = .ok 0 := rfl
